import Mathlib

/-!
Shallow embedding of the dfttk structure-builder core
(`dfttk/structure_builders/endmembers.py` and
`dfttk/structure_builders/dilute.py`).

Pymatgen structures are modelled as a lattice plus an ordered list of
sites; each site carries fractional coordinates, a single-element
species (a string symbol) and a property bag.  The external symmetry
collaborator (pymatgen's `SpacegroupAnalyzer`, backed by spglib) is
modelled as an oracle function: it reads exactly the data pymatgen
hands to it — the lattice, and per site the coordinates and the
species — and returns per-site Wyckoff labels (resp. equivalent-atom
group indices).  Python exceptions are modelled by `Option`: a
function that can raise returns `none` on the raising runs.
-/

namespace Dfttk

/-- Fractional coordinates of a site (pymatgen uses floats; the claims
never compute with coordinates, so an exact numeric type is used). -/
abbrev Coords := ℚ × ℚ × ℚ

/-- One atomic site of a pymatgen `Structure`: position, single-element
species, and the site property bag. -/
structure CrysSite where
  coords : Coords
  element : String
  props : List (String × String)
deriving DecidableEq, Repr

/-- A pymatgen `Structure`: shared lattice plus the ordered site list. -/
structure CrysStructure where
  lattice : List Coords
  sites : List CrysSite
deriving DecidableEq, Repr

/-- First-match association-list lookup; Python `dict` lookup for the
string-keyed dictionaries appearing in the source (their keys are
pairwise distinct in every use). -/
def lookupAssoc : List (String × String) → String → Option String
  | [], _ => none
  | (k, v) :: rest, key => if k = key then some v else lookupAssoc rest key

/-- The distinct species names of a structure, `{sp.name for sp in
structure.species}`. -/
def speciesNames (s : CrysStructure) : List String :=
  (s.sites.map fun st => st.element).dedup

/-- The mapping `{sp.name: "H" for sp in structure.species}` built by
`get_sublattice_information` before symmetry analysis. -/
def normalizeMap (s : CrysStructure) : List (String × String) :=
  (speciesNames s).map fun n => (n, "H")

/-- pymatgen `Structure.replace_species`: every site whose species name
is a key of the mapping gets the mapped species; other sites are left
alone.  This mutates the structure in place in pymatgen; here the
mutated structure is returned and threaded explicitly. -/
def replace_species (s : CrysStructure) (m : List (String × String)) : CrysStructure :=
  { s with sites := s.sites.map fun st =>
      match lookupAssoc m st.element with
      | some e => { st with element := e }
      | none => st }

/-- The data pymatgen's `SpacegroupAnalyzer` reads from a structure:
the lattice, and per site the coordinates and the species.  Site
property bags are not part of the symmetry input. -/
def symInput (s : CrysStructure) : List Coords × List (Coords × String) :=
  (s.lattice, s.sites.map fun st => (st.coords, st.element))

/-- External symmetry oracle returning the per-site Wyckoff letters
(`sga.get_symmetry_dataset()['wyckoffs']`). -/
abbrev WyckoffOracle := List Coords × List (Coords × String) → List String

/-- `[equivalent_wyckoff_sites[i] if i in equivalent_wyckoff_sites else i
for i in wyckoff_sites]` (identity when no map is supplied). -/
def applyEquivalentWyckoff : Option (List (String × String)) → List String → List String
  | some m, ws => ws.map fun i =>
      match lookupAssoc m i with
      | some v => v
      | none => i
  | none, ws => ws

/-- Code-point lexicographic `≤` on character lists: exactly the order
Python uses to compare strings. -/
def charListLe : List Char → List Char → Bool
  | [], _ => true
  | _ :: _, [] => false
  | a :: as, b :: bs =>
      if a.toNat < b.toNat then true
      else if a.toNat = b.toNat then charListLe as bs
      else false

/-- Python string `≤` (lexicographic by code point). -/
def strLeB (a b : String) : Bool :=
  charListLe a.data b.data

/-- Insert a string into an already sorted list. -/
def insertSortedStr (x : String) : List String → List String
  | [] => [x]
  | y :: ys => if strLeB x y then x :: y :: ys else y :: insertSortedStr x ys

/-- Python `sorted` on a list of strings.  (Any correct sort agrees
with Python's: two sorted permutations of the same string list are
equal, since elements comparing equal under the total code-point
order are identical strings.) -/
def sortStrings : List String → List String
  | [] => []
  | x :: xs => insertSortedStr x (sortStrings xs)

/-- `get_sublattice_information(structure, equivalent_wyckoff_sites)`.
The first component of the result is the caller's structure as it
stands after the call (the species normalization is performed in place
on it).  The second component is the returned pair
`(site_list, subl_model_name)`; each `site_list` entry is the one-key
dict `{'sublattice_sites': label}` and is modelled by its label.
`subl_model_name` is only assigned inside the per-site loop, so an
empty label list leaves it unbound (`UnboundLocalError`, modelled as
`none`). -/
def get_sublattice_information (sga : WyckoffOracle) (s : CrysStructure)
    (equivalent_wyckoff_sites : Option (List (String × String))) :
    CrysStructure × Option (List String × List String) :=
  let s := replace_species s (normalizeMap s)
  let wyckoff_sites := sga (symInput s)
  let true_sublattice_sites := applyEquivalentWyckoff equivalent_wyckoff_sites wyckoff_sites
  match true_sublattice_sites with
  | [] => (s, none)
  | l => (s, some (l, sortStrings l.dedup))

/-- The IUPAC symbols of the 118 named elements, in atomic-number
order; `str(Element.from_Z(z))` is `elementSymbols[z-1]`. -/
def elementSymbols : List String :=
  ["H", "He", "Li", "Be", "B", "C", "N", "O", "F", "Ne",
   "Na", "Mg", "Al", "Si", "P", "S", "Cl", "Ar", "K", "Ca",
   "Sc", "Ti", "V", "Cr", "Mn", "Fe", "Co", "Ni", "Cu", "Zn",
   "Ga", "Ge", "As", "Se", "Br", "Kr", "Rb", "Sr", "Y", "Zr",
   "Nb", "Mo", "Tc", "Ru", "Rh", "Pd", "Ag", "Cd", "In", "Sn",
   "Sb", "Te", "I", "Xe", "Cs", "Ba", "La", "Ce", "Pr", "Nd",
   "Pm", "Sm", "Eu", "Gd", "Tb", "Dy", "Ho", "Er", "Tm", "Yb",
   "Lu", "Hf", "Ta", "W", "Re", "Os", "Ir", "Pt", "Au", "Hg",
   "Tl", "Pb", "Bi", "Po", "At", "Rn", "Fr", "Ra", "Ac", "Th",
   "Pa", "U", "Np", "Pu", "Am", "Cm", "Bk", "Cf", "Es", "Fm",
   "Md", "No", "Lr", "Rf", "Db", "Sg", "Bh", "Hs", "Mt", "Ds",
   "Rg", "Cn", "Nh", "Fl", "Mc", "Lv", "Ts", "Og"]

/-- `str(Element.from_Z(z))` for `1 ≤ z ≤ 118`; `Element.from_Z`
raises outside that range, which callers guard against. -/
def elementSymbol (z : Nat) : String :=
  elementSymbols.getD (z - 1) ""

/-- Python `dict.update({key: v})`: replace the value of an existing
key in place, otherwise append the binding. -/
def updateProp : List (String × String) → String → String → List (String × String)
  | [], k, v => [(k, v)]
  | (k0, v0) :: rest, k, v =>
      if k0 = k then (k, v) :: rest else (k0, v0) :: updateProp rest k v

/-- One pass of the placeholder loop in `get_templates`: every site
whose current species equals `name` has it overwritten by `sym`. -/
def placeholderPass (name sym : String) (sites : List CrysSite) : List CrysSite :=
  sites.map fun st => if st.element = name then { st with element := sym } else st

/-- The `for i in range(0, len(true_sublattices))` loop of
`get_templates`: pass `i` rewrites label `true_sublattices[i]` to
`str(Element.from_Z(i+1))` and appends that symbol to the template
configuration. -/
def placeholderLoop : Nat → List String → List CrysSite → List CrysSite × List String
  | _, [], sites => (sites, [])
  | i, n :: ns, sites =>
      let rest := placeholderLoop (i + 1) ns (placeholderPass n (elementSymbol (i + 1)) sites)
      (rest.1, elementSymbol (i + 1) :: rest.2)

/-- The first per-site loop of `get_templates` on the serialized dict:
site `i` gets `site_list[i]` merged into its property bag and its
species overwritten by the label `site_list[i]`. -/
def markSites (sites : List CrysSite) (site_list : List String) : List CrysSite :=
  (sites.zip site_list).map fun p =>
    { p.1 with element := p.2, props := updateProp p.1.props "sublattice_sites" p.2 }

/-- `get_templates(structure, equivalent_wyckoff_sites)`.  First
component: the caller's structure after the call (mutated by the
nested `get_sublattice_information` call).  Second component: the
returned `(template_structure, template_configuration)`, or `none`
when the nested call raises, when `site_list` is shorter than the site
list (`IndexError`), or when more than 118 sublattices would exhaust
`Element.from_Z`.  The dict-level rewriting operates on a serialized
copy (`structure.as_dict()`), so it adds no further caller-visible
mutation. -/
def get_templates (sga : WyckoffOracle) (s : CrysStructure)
    (equivalent_wyckoff_sites : Option (List (String × String))) :
    CrysStructure × Option (CrysStructure × List String) :=
  match get_sublattice_information sga s equivalent_wyckoff_sites with
  | (s1, none) => (s1, none)
  | (s1, some (site_list, true_sublattices)) =>
      if s1.sites.length ≤ site_list.length ∧ true_sublattices.length ≤ 118 then
        let res := placeholderLoop 0 true_sublattices (markSites s1.sites site_list)
        (s1, some ({ s1 with sites := res.1 }, res.2))
      else (s1, none)

/-- Keys of the placeholder dictionary, in insertion order. -/
def dictKeys (d : List (String × List String)) : List String :=
  d.map fun p => p.1

/-- One Python dict insertion: re-assigning an existing key keeps its
position and updates the value; a fresh key is appended. -/
def dictInsert (d : List (String × List String)) (k : String) (v : List String) :
    List (String × List String) :=
  if k ∈ dictKeys d then d.map fun p => if p.1 = k then (k, v) else p
  else d ++ [(k, v)]

/-- `dict(map(lambda x, y: [x, y], template_configuration,
sublattice_configuration))`: Python's two-argument `map` stops at the
shorter sequence, so this is a dict built from the zip. -/
def buildElementDict (tc : List String) (sc : List (List String)) :
    List (String × List String) :=
  (tc.zip sc).foldl (fun d p => dictInsert d p.1 p.2) []

/-- Python `dict.get`. -/
def dictGet : List (String × List String) → String → Option (List String)
  | [], _ => none
  | (k, v) :: rest, key => if k = key then some v else dictGet rest key

/-- `itertools.product(*lists)` as a list of lists: standard
Cartesian-product order, right-most axis varying fastest. -/
def productLists : List (List String) → List (List String)
  | [] => [[]]
  | l :: ls => l.flatMap fun x => (productLists ls).map fun c => x :: c

/-- Substitution of one (configuration, assignment) pair: every site
whose species equals `tc[j]` is rewritten to `asg[j]`; sites matching
no placeholder are left alone. -/
def substOne (s : CrysStructure) (tc asg : List String) : CrysStructure :=
  { s with sites := s.sites.map fun st =>
      match lookupAssoc (tc.zip asg) st.element with
      | some e => { st with element := e }
      | none => st }

/-- Modelled from the spec: `substitute_configuration` lives in
`dfttk.structure_builders.substitutions`, a module that is not among
the sources.  Per the spec's Substitution Engine contract it receives
a structure, template configurations and positionally aligned concrete
assignments, returns a new structure with every placeholder species
replaced by the corresponding concrete element while preserving site
count, positions and property bags, and fails on a length mismatch
between a configuration and its assignment. -/
def substitute_configuration (s : CrysStructure) (configs asgs : List (List String)) :
    Option CrysStructure :=
  if configs.length = asgs.length ∧
      (configs.zip asgs).all (fun p => p.1.length = p.2.length) then
    some ((configs.zip asgs).foldl (fun acc p => substOne acc p.1 p.2) s)
  else none

/-- Sequential accumulation of fallible per-item results; a raising
item aborts the whole computation (Python exception propagation). -/
def collectSome {α β : Type} (f : α → Option β) : List α → Option (List β)
  | [] => some []
  | x :: xs =>
      match f x, collectSome f xs with
      | some y, some ys => some (y :: ys)
      | _, _ => none

/-- `get_endmembers_with_templates(template_structure,
template_configuration, sublattice_configuration)`. -/
def get_endmembers_with_templates (template_structure : CrysStructure)
    (template_configuration : List String)
    (sublattice_configuration : List (List String)) : Option (List CrysStructure) :=
  let element_dict := buildElementDict template_configuration sublattice_configuration
  let sortedKeys := sortStrings (dictKeys element_dict)
  let subl_combination := productLists (sortedKeys.map fun k => (dictGet element_dict k).getD [])
  collectSome
    (fun i => substitute_configuration template_structure [template_configuration] [i])
    subl_combination

def naclStructure : CrysStructure :=
  ⟨[(1, 0, 0), (0, 1, 0), (0, 0, 1)],
   [⟨(0, 0, 0), "Na", []⟩, ⟨(1, 1, 1), "Cl", []⟩]⟩

def kbrStructure : CrysStructure :=
  ⟨[(1, 0, 0), (0, 1, 0), (0, 0, 1)],
   [⟨(0, 0, 0), "K", []⟩, ⟨(1, 1, 1), "Br", []⟩]⟩

def mergeExample : CrysStructure :=
  ⟨[(1, 0, 0), (0, 1, 0), (0, 0, 1)],
   [⟨(0, 0, 0), "X", []⟩, ⟨(1, 0, 0), "Y", []⟩, ⟨(2, 0, 0), "Z", []⟩]⟩

def h1Structure : CrysStructure :=
  ⟨[(1, 0, 0), (0, 1, 0), (0, 0, 1)], [⟨(0, 0, 0), "H", []⟩]⟩

def sga4 : WyckoffOracle := fun _ => ["a", "b", "c", "d"]

def quat4Structure : CrysStructure :=
  ⟨[(1, 0, 0), (0, 1, 0), (0, 0, 1)],
   [⟨(0, 0, 0), "W", []⟩, ⟨(1, 0, 0), "X", []⟩,
    ⟨(2, 0, 0), "Y", []⟩, ⟨(3, 0, 0), "Z", []⟩]⟩

def template4 : CrysStructure :=
  ⟨[(1, 0, 0), (0, 1, 0), (0, 0, 1)],
   [⟨(0, 0, 0), "H", [("sublattice_sites", "a")]⟩,
    ⟨(1, 0, 0), "He", [("sublattice_sites", "b")]⟩,
    ⟨(2, 0, 0), "Li", [("sublattice_sites", "c")]⟩,
    ⟨(3, 0, 0), "Be", [("sublattice_sites", "d")]⟩]⟩

def endmember4 : CrysStructure :=
  ⟨[(1, 0, 0), (0, 1, 0), (0, 0, 1)],
   [⟨(0, 0, 0), "Ca", [("sublattice_sites", "a")]⟩,
    ⟨(1, 0, 0), "Na", [("sublattice_sites", "b")]⟩,
    ⟨(2, 0, 0), "K", [("sublattice_sites", "c")]⟩,
    ⟨(3, 0, 0), "Mg", [("sublattice_sites", "d")]⟩]⟩

def template2 : CrysStructure :=
  ⟨[(1, 0, 0), (0, 1, 0), (0, 0, 1)],
   [⟨(0, 0, 0), "H", []⟩, ⟨(1, 1, 1), "He", []⟩]⟩

def template3 : CrysStructure :=
  ⟨[(1, 0, 0), (0, 1, 0), (0, 0, 1)],
   [⟨(0, 0, 0), "H", []⟩, ⟨(1, 0, 0), "He", []⟩, ⟨(2, 0, 0), "Li", []⟩]⟩

/-- The post-merge per-site Wyckoff labels computed inside
`get_sublattice_information` (the symmetry analysis runs on the
species-normalized structure). -/
def wyckoffLabels (sga : WyckoffOracle) (s : CrysStructure)
    (eqw : Option (List (String × String))) : List String :=
  applyEquivalentWyckoff eqw (sga (symInput (replace_species s (normalizeMap s))))

/-- `subl_model_name`: the sorted distinct post-merge labels. -/
def sublatticeNames (sga : WyckoffOracle) (s : CrysStructure)
    (eqw : Option (List (String × String))) : List String :=
  sortStrings (wyckoffLabels sga s eqw).dedup

/-- The effect of the placeholder loop of `get_templates` on one
site's species: pass `i + j` rewrites the label `ns[j]` to
`elementSymbol (i + j + 1)`. -/
def placeholderElem : Nat → List String → String → String
  | _, [], e => e
  | i, n :: ns, e =>
      placeholderElem (i + 1) ns (if e = n then elementSymbol (i + 1) else e)

def abStructure : CrysStructure :=
  ⟨[(1, 0, 0), (0, 1, 0), (0, 0, 1)],
   [⟨(0, 0, 0), "Fe", []⟩, ⟨(1, 1, 1), "Ni", []⟩]⟩

/-- The site list of the template structure built by `get_templates`
(species marked with labels, then rewritten to placeholders). -/
def templateSites (sga : WyckoffOracle) (s : CrysStructure)
    (eqw : Option (List (String × String))) : List CrysSite :=
  (placeholderLoop 0 (sublatticeNames sga s eqw)
    (markSites (replace_species s (normalizeMap s)).sites
      (wyckoffLabels sga s eqw))).1

/-- The `template_configuration` built by `get_templates`. -/
def templateConfiguration (sga : WyckoffOracle) (s : CrysStructure)
    (eqw : Option (List (String × String))) : List String :=
  (placeholderLoop 0 (sublatticeNames sga s eqw)
    (markSites (replace_species s (normalizeMap s)).sites
      (wyckoffLabels sga s eqw))).2

/-! Basic lemmas about the embedding. -/

theorem lookupAssoc_map_const {l : List String} {x c : String} (hx : x ∈ l) :
    lookupAssoc (l.map fun n => (n, c)) x = some c := by
  induction l with
  | nil => cases hx
  | cons a t ih =>
      rcases List.mem_cons.mp hx with h | h
      · simp [lookupAssoc, h]
      · by_cases hax : a = x
        · simp [lookupAssoc, hax]
        · simp [lookupAssoc, hax, ih h]

theorem replace_species_normalize (s : CrysStructure) :
    (replace_species s (normalizeMap s)).sites =
      s.sites.map fun st => { st with element := "H" } := by
  unfold replace_species
  refine List.map_congr_left fun st hst => ?_
  have hmem : st.element ∈ speciesNames s := by
    unfold speciesNames
    exact List.mem_dedup.mpr (List.mem_map.mpr ⟨st, hst, rfl⟩)
  simp [normalizeMap, lookupAssoc_map_const hmem]

theorem charListLe_total : ∀ as bs, charListLe as bs = true ∨ charListLe bs as = true := by
  intro as
  induction as with
  | nil => intro bs; exact Or.inl rfl
  | cons a as ih =>
      intro bs
      cases bs with
      | nil => exact Or.inr rfl
      | cons b bs =>
          rcases Nat.lt_trichotomy a.toNat b.toNat with h | h | h
          · left
            simp [charListLe, h]
          · rcases ih bs with h2 | h2
            · left
              simp [charListLe, h, h2]
            · right
              simp [charListLe, h.symm, h2]
          · right
            simp [charListLe, h]

theorem charListLe_trans : ∀ {as bs cs}, charListLe as bs = true →
    charListLe bs cs = true → charListLe as cs = true := by
  intro as
  induction as with
  | nil => intro bs cs _ _; rfl
  | cons a as ih =>
      intro bs cs h1 h2
      cases bs with
      | nil => simp [charListLe] at h1
      | cons b bs =>
          cases cs with
          | nil => simp [charListLe] at h2
          | cons c cs =>
              by_cases hab : a.toNat < b.toNat
              · by_cases hbc : b.toNat < c.toNat
                · simp [charListLe, Nat.lt_trans hab hbc]
                · by_cases hbc2 : b.toNat = c.toNat
                  · simp [charListLe, hbc2 ▸ hab]
                  · simp [charListLe, hbc, hbc2] at h2
              · by_cases hab2 : a.toNat = b.toNat
                · simp only [charListLe, if_neg hab, if_pos hab2] at h1
                  by_cases hbc : b.toNat < c.toNat
                  · simp [charListLe, hab2 ▸ hbc]
                  · by_cases hbc2 : b.toNat = c.toNat
                    · simp only [charListLe, if_neg hbc, if_pos hbc2] at h2
                      have hac : a.toNat = c.toNat := hab2.trans hbc2
                      have hlt : ¬ a.toNat < c.toNat := by omega
                      simp [charListLe, hlt, hac, ih h1 h2]
                    · simp [charListLe, hbc, hbc2] at h2
                · simp [charListLe, hab, hab2] at h1

theorem strLeB_total (a b : String) : strLeB a b = true ∨ strLeB b a = true :=
  charListLe_total a.data b.data

theorem strLeB_trans {a b c : String} (h1 : strLeB a b = true)
    (h2 : strLeB b c = true) : strLeB a c = true :=
  charListLe_trans h1 h2

theorem perm_insertSortedStr (x : String) : ∀ l, (insertSortedStr x l).Perm (x :: l) := by
  intro l
  induction l with
  | nil => exact List.Perm.refl _
  | cons y ys ih =>
      by_cases h : strLeB x y = true
      · simp [insertSortedStr, h]
      · simp only [insertSortedStr, if_neg h]
        exact (ih.cons y).trans (List.Perm.swap x y ys)

theorem sortStrings_perm : ∀ l : List String, (sortStrings l).Perm l
  | [] => List.Perm.refl _
  | x :: xs => (perm_insertSortedStr x (sortStrings xs)).trans
      ((sortStrings_perm xs).cons x)

theorem mem_sortStrings {l : List String} {x : String} : x ∈ sortStrings l ↔ x ∈ l :=
  (sortStrings_perm l).mem_iff

theorem nodup_sortStrings {l : List String} (h : l.Nodup) : (sortStrings l).Nodup :=
  ((sortStrings_perm l).nodup_iff).mpr h

theorem sorted_insertSortedStr (x : String) {l : List String}
    (hl : l.Sorted fun a b => strLeB a b = true) :
    (insertSortedStr x l).Sorted fun a b => strLeB a b = true := by
  induction l with
  | nil => simp [insertSortedStr]
  | cons y ys ih =>
      rw [List.sorted_cons] at hl
      obtain ⟨hy, hys⟩ := hl
      by_cases h : strLeB x y = true
      · simp only [insertSortedStr, if_pos h]
        rw [List.sorted_cons]
        refine ⟨fun b hb => ?_, List.sorted_cons.mpr ⟨hy, hys⟩⟩
        rcases List.mem_cons.mp hb with rfl | hb
        · exact h
        · exact strLeB_trans h (hy b hb)
      · simp only [insertSortedStr, if_neg h]
        rw [List.sorted_cons]
        refine ⟨fun b hb => ?_, ih hys⟩
        rcases List.mem_cons.mp ((perm_insertSortedStr x ys).mem_iff.mp hb) with rfl | hb2
        · rcases strLeB_total b y with h2 | h2
          · exact absurd h2 h
          · exact h2
        · exact hy b hb2

theorem sorted_sortStrings : ∀ l : List String,
    (sortStrings l).Sorted fun a b => strLeB a b = true
  | [] => List.Pairwise.nil
  | x :: xs => sorted_insertSortedStr x (sorted_sortStrings xs)

theorem applyEquivalentWyckoff_eq_nil {eqw : Option (List (String × String))}
    {ws : List String} : applyEquivalentWyckoff eqw ws = [] ↔ ws = [] := by
  cases eqw <;> simp [applyEquivalentWyckoff]

theorem get_sublattice_information_fst (sga : WyckoffOracle) (s : CrysStructure)
    (eqw : Option (List (String × String))) :
    (get_sublattice_information sga s eqw).1 = replace_species s (normalizeMap s) := by
  simp only [get_sublattice_information]
  split <;> rfl

theorem get_sublattice_information_snd_of_ne_nil (sga : WyckoffOracle)
    (s : CrysStructure) (eqw : Option (List (String × String)))
    (h : applyEquivalentWyckoff eqw
      (sga (symInput (replace_species s (normalizeMap s)))) ≠ []) :
    (get_sublattice_information sga s eqw).2 =
      some (applyEquivalentWyckoff eqw
          (sga (symInput (replace_species s (normalizeMap s)))),
        sortStrings (applyEquivalentWyckoff eqw
          (sga (symInput (replace_species s (normalizeMap s))))).dedup) := by
  simp only [get_sublattice_information]

theorem get_sublattice_information_snd_of_nil (sga : WyckoffOracle)
    (s : CrysStructure) (eqw : Option (List (String × String)))
    (h : applyEquivalentWyckoff eqw
      (sga (symInput (replace_species s (normalizeMap s)))) = []) :
    (get_sublattice_information sga s eqw).2 = none := by
  simp only [get_sublattice_information, h]

theorem get_templates_fst (sga : WyckoffOracle) (s : CrysStructure)
    (eqw : Option (List (String × String))) :
    (get_templates sga s eqw).1 = (get_sublattice_information sga s eqw).1 := by
  simp only [get_templates]
  split
  · rename_i s1 heq
    rw [heq]
  · rename_i s1 sl ts heq
    split <;> rw [heq]

/-! Lemmas about the endmember enumeration. -/

theorem length_productLists (ls : List (List String)) :
    (productLists ls).length = (ls.map List.length).prod := by
  induction ls with
  | nil => rfl
  | cons l ls ih =>
      have hconst : (List.length ∘ fun x => List.map (fun c => x :: c) (productLists ls)) =
          fun _ : String => (productLists ls).length := by
        funext x
        simp
      simp [productLists, List.length_flatMap, hconst, List.map_const',
        List.sum_replicate, smul_eq_mul, ih]

theorem mem_productLists {ls : List (List String)} {c : List String}
    (hc : c ∈ productLists ls) :
    c.length = ls.length ∧
      ∀ i (hi : i < c.length) (hi2 : i < ls.length),
        c.get ⟨i, hi⟩ ∈ ls.get ⟨i, hi2⟩ := by
  induction ls generalizing c with
  | nil =>
      simp [productLists] at hc
      subst hc
      exact ⟨rfl, fun i hi => absurd hi (by simp)⟩
  | cons l ls ih =>
      simp only [productLists, List.mem_flatMap, List.mem_map] at hc
      obtain ⟨x, hx, c2, hc2, rfl⟩ := hc
      obtain ⟨hlen, hget⟩ := ih hc2
      refine ⟨by simp [hlen], fun i hi hi2 => ?_⟩
      cases i with
      | zero => exact hx
      | succ n => exact hget n (by simpa using hi) (by simpa using hi2)

theorem productLists_eq_nil_of_mem {ls : List (List String)} (h : [] ∈ ls) :
    productLists ls = [] := by
  induction ls with
  | nil => cases h
  | cons l ls ih =>
      rcases List.mem_cons.mp h with h0 | h0
      · subst h0
        rfl
      · simp [productLists, ih h0]

theorem dictInsert_of_not_mem {d : List (String × List String)} {k : String}
    {v : List String} (h : k ∉ dictKeys d) : dictInsert d k v = d ++ [(k, v)] := by
  simp [dictInsert, h]

theorem foldl_dictInsert_eq_append (ps : List (String × List String)) :
    ∀ acc : List (String × List String),
      (dictKeys acc ++ ps.map Prod.fst).Nodup →
      ps.foldl (fun d p => dictInsert d p.1 p.2) acc = acc ++ ps := by
  induction ps with
  | nil =>
      intro acc _
      simp
  | cons p ps ih =>
      intro acc h
      have h2 : (dictKeys acc).Disjoint (p.1 :: ps.map Prod.fst) :=
        ((List.nodup_append).mp (by simpa using h)).2.2
      have hk : p.1 ∉ dictKeys acc := fun hc => h2 hc (List.mem_cons_self _ _)
      have hstep : List.foldl (fun d p => dictInsert d p.1 p.2) acc (p :: ps) =
          List.foldl (fun d p => dictInsert d p.1 p.2) (acc ++ [p]) ps := by
        simp [List.foldl_cons, dictInsert_of_not_mem hk]
      rw [hstep, ih (acc ++ [p]) ?_]
      · simp
      · have : dictKeys (acc ++ [p]) ++ ps.map Prod.fst =
            dictKeys acc ++ p.1 :: ps.map Prod.fst := by
          simp [dictKeys]
        rw [this]
        simpa using h

theorem buildElementDict_eq_zip {tc : List String} {sc : List (List String)}
    (hnd : tc.Nodup) (hlen : tc.length = sc.length) :
    buildElementDict tc sc = tc.zip sc := by
  unfold buildElementDict
  rw [foldl_dictInsert_eq_append (tc.zip sc) []]
  · simp
  · simpa [dictKeys, List.map_fst_zip tc sc (le_of_eq hlen)] using hnd

theorem dictKeys_zip {tc : List String} {sc : List (List String)}
    (hlen : tc.length = sc.length) : dictKeys (tc.zip sc) = tc := by
  simpa [dictKeys] using List.map_fst_zip tc sc (le_of_eq hlen)

theorem dictGet_cons_ne {k key : String} {v : List String}
    {rest : List (String × List String)} (h : ¬ k = key) :
    dictGet ((k, v) :: rest) key = dictGet rest key := by
  simp [dictGet, h]

theorem map_dictGet_zip {tc : List String} {sc : List (List String)}
    (hnd : tc.Nodup) (hlen : tc.length = sc.length) :
    tc.map (fun k => (dictGet (tc.zip sc) k).getD []) = sc := by
  induction tc generalizing sc with
  | nil =>
      cases sc with
      | nil => rfl
      | cons v vs => cases hlen
  | cons k tcs ih =>
      cases sc with
      | nil => cases hlen
      | cons v vs =>
          have hk : k ∉ tcs := (List.nodup_cons.mp hnd).1
          have hnd2 : tcs.Nodup := (List.nodup_cons.mp hnd).2
          have hlen2 : tcs.length = vs.length := by simpa using hlen
          simp only [List.zip_cons_cons, List.map_cons]
          congr 1
          · simp [dictGet]
          · calc tcs.map (fun x => (dictGet ((k, v) :: tcs.zip vs) x).getD [])
                = tcs.map (fun x => (dictGet (tcs.zip vs) x).getD []) := by
                  refine List.map_congr_left fun x hx => ?_
                  rw [dictGet_cons_ne (fun hc => hk (by rw [hc]; exact hx))]
              _ = vs := ih hnd2 hlen2

theorem lookupAssoc_zip_get {tc asg : List String} (hnd : tc.Nodup) :
    ∀ i (hi : i < tc.length) (hi2 : i < asg.length),
      lookupAssoc (tc.zip asg) (tc.get ⟨i, hi⟩) = some (asg.get ⟨i, hi2⟩) := by
  induction tc generalizing asg with
  | nil => intro i hi; cases hi
  | cons k tcs ih =>
      intro i hi hi2
      cases asg with
      | nil => cases hi2
      | cons a asgs =>
          cases i with
          | zero => simp [lookupAssoc]
          | succ n =>
              have hk : k ∉ tcs := (List.nodup_cons.mp hnd).1
              have hne : ¬ k = tcs.get ⟨n, by simpa using hi⟩ :=
                fun hc => hk (by rw [hc]; exact List.get_mem _ _ _)
              simp only [List.zip_cons_cons, List.get_cons_succ, lookupAssoc,
                if_neg hne]
              exact ih (List.nodup_cons.mp hnd).2 n _ _

theorem collectSome_of_forall_some {α β : Type} {f : α → Option β} {l : List α}
    (h : ∀ x ∈ l, (f x).isSome) :
    ∃ r, collectSome f l = some r ∧ r.length = l.length ∧
      ∀ i (hi : i < l.length) (hi2 : i < r.length),
        f (l.get ⟨i, hi⟩) = some (r.get ⟨i, hi2⟩) := by
  induction l with
  | nil => exact ⟨[], rfl, rfl, fun i hi => absurd hi (by simp)⟩
  | cons x xs ih =>
      obtain ⟨y, hy⟩ := Option.isSome_iff_exists.mp (h x (List.mem_cons_self _ _))
      obtain ⟨r, hr, hrl, hri⟩ := ih fun z hz => h z (List.mem_cons_of_mem _ hz)
      refine ⟨y :: r, ?_, by simp [hrl], fun i hi hi2 => ?_⟩
      · simp [collectSome, hy, hr]
      · cases i with
        | zero => simpa using hy
        | succ n => exact hri n (by simpa using hi) (by simpa using hi2)

theorem collectSome_mem {α β : Type} {f : α → Option β} :
    ∀ {l : List α} {r : List β}, collectSome f l = some r → ∀ {t : β}, t ∈ r →
      ∃ x ∈ l, f x = some t := by
  intro l
  induction l with
  | nil =>
      intro r h t ht
      simp only [collectSome, Option.some.injEq] at h
      subst h
      cases ht
  | cons x xs ih =>
      intro r h t ht
      cases hfx : f x with
      | none => rw [collectSome, hfx] at h; cases h
      | some y =>
          cases hrec : collectSome f xs with
          | none => rw [collectSome, hfx, hrec] at h; cases h
          | some ys =>
              rw [collectSome, hfx, hrec] at h
              cases h
              rcases List.mem_cons.mp ht with h0 | h0
              · exact ⟨x, List.mem_cons_self _ _, h0 ▸ hfx⟩
              · obtain ⟨z, hz, hfz⟩ := ih hrec h0
                exact ⟨z, List.mem_cons_of_mem _ hz, hfz⟩

theorem zip_take_right (tc : List String) (sc : List (List String)) :
    tc.zip (sc.take tc.length) = tc.zip sc := by
  induction tc generalizing sc with
  | nil => rfl
  | cons k tcs ih =>
      cases sc with
      | nil => rfl
      | cons v vs => simp [ih]

theorem map_get_eq {α β : Type} {f : α → β} {l : List α} {r : List β}
    (h : l.map f = r) (j : Nat) (hj : j < l.length) (hj2 : j < r.length) :
    f (l.get ⟨j, hj⟩) = r.get ⟨j, hj2⟩ := by
  subst h
  simp

theorem get_endmembers_eq (ts : CrysStructure) (tc : List String)
    (sc : List (List String)) (hnd : tc.Nodup) (hlen : tc.length = sc.length) :
    get_endmembers_with_templates ts tc sc =
      collectSome (fun i => substitute_configuration ts [tc] [i])
        (productLists ((sortStrings tc).map fun k => (dictGet (tc.zip sc) k).getD [])) := by
  simp only [get_endmembers_with_templates]
  rw [buildElementDict_eq_zip hnd hlen, dictKeys_zip hlen]

theorem substitute_one_some (ts : CrysStructure) {tc c : List String}
    (h : tc.length = c.length) :
    substitute_configuration ts [tc] [c] = some (substOne ts tc c) := by
  simp [substitute_configuration, h]

/-! Lemmas about dilute substitution. -/

theorem markSites_length (sites : List CrysSite) (sl : List String) :
    (markSites sites sl).length = min sites.length sl.length := by
  simp [markSites]

theorem markSites_get (sites : List CrysSite) (sl : List String) (k : Nat)
    (hk : k < sites.length) (hk2 : k < sl.length)
    (hk3 : k < (markSites sites sl).length) :
    (markSites sites sl).get ⟨k, hk3⟩ =
      ⟨(sites.get ⟨k, hk⟩).coords, sl.get ⟨k, hk2⟩,
        updateProp (sites.get ⟨k, hk⟩).props "sublattice_sites" (sl.get ⟨k, hk2⟩)⟩ := by
  simp [markSites, List.get_eq_getElem, List.getElem_map, List.getElem_zip]

theorem placeholderLoop_fst : ∀ (ns : List String) (i : Nat) (sites : List CrysSite),
    (placeholderLoop i ns sites).1 =
      sites.map fun st => { st with element := placeholderElem i ns st.element }
  | [], i, sites => by
      simp only [placeholderLoop, placeholderElem]
      exact (List.map_id sites).symm
  | n :: ns, i, sites => by
      simp only [placeholderLoop]
      rw [placeholderLoop_fst ns (i + 1) (placeholderPass n (elementSymbol (i + 1)) sites)]
      unfold placeholderPass
      rw [List.map_map]
      refine List.map_congr_left fun st _ => ?_
      by_cases hst : st.element = n
      · simp [Function.comp, hst, placeholderElem]
      · simp [Function.comp, hst, placeholderElem]

theorem placeholderLoop_snd : ∀ (ns : List String) (i : Nat) (sites : List CrysSite),
    (placeholderLoop i ns sites).2 =
      (List.range ns.length).map fun j => elementSymbol (i + j + 1)
  | [], i, sites => by simp [placeholderLoop]
  | n :: ns, i, sites => by
      simp only [placeholderLoop]
      rw [placeholderLoop_snd ns (i + 1) _]
      rw [List.length_cons, List.range_succ_eq_map, List.map_cons, List.map_map]
      refine congrArg₂ List.cons rfl ?_
      refine List.map_congr_left fun j _ => ?_
      simp only [Function.comp]
      rw [show i + 1 + j + 1 = i + (j + 1) + 1 from by omega]

theorem placeholderElem_not_mem : ∀ (i : Nat) (ns : List String) (e : String),
    (∀ n ∈ ns, e ≠ n) → placeholderElem i ns e = e
  | _, [], _, _ => rfl
  | i, n :: ns, e, h => by
      simp only [placeholderElem, if_neg (h n (List.mem_cons_self n ns))]
      exact placeholderElem_not_mem (i + 1) ns e fun m hm => h m (List.mem_cons_of_mem n hm)

theorem placeholderElem_get : ∀ (ns : List String) (i : Nat) (j : Nat)
    (hj : j < ns.length), ns.Nodup →
    (∀ n ∈ ns, ∀ k, k < i + ns.length → n ≠ elementSymbol (k + 1)) →
    placeholderElem i ns (ns.get ⟨j, hj⟩) = elementSymbol (i + j + 1)
  | [], _, j, hj, _, _ => absurd hj (by simp)
  | n :: ns, i, 0, hj, hnd, hcol => by
      simp only [placeholderElem]
      rw [if_pos (show (n :: ns).get ⟨0, hj⟩ = n from rfl)]
      rw [placeholderElem_not_mem (i + 1) ns _ (fun m hm hc =>
        hcol m (List.mem_cons_of_mem n hm) i
          (by simp only [List.length_cons]; omega) hc.symm)]
  | n :: ns, i, j + 1, hj, hnd, hcol => by
      have hjn : j < ns.length := by simpa using hj
      have hmem : ns.get ⟨j, hjn⟩ ∈ ns := List.get_mem _ _ _
      have hne : (ns.get ⟨j, hjn⟩) ≠ n :=
        fun hc => (List.nodup_cons.mp hnd).1 (by rw [← hc]; exact hmem)
      simp only [placeholderElem, List.get_cons_succ]
      rw [if_neg hne]
      rw [placeholderElem_get ns (i + 1) j hjn (List.nodup_cons.mp hnd).2
        (fun m hm k hk => hcol m (List.mem_cons_of_mem n hm) k
          (by simp only [List.length_cons] at hk ⊢; omega))]
      rw [show i + 1 + j + 1 = i + (j + 1) + 1 from by omega]

theorem get_sublattice_information_eq_of_ne_nil (sga : WyckoffOracle)
    (s : CrysStructure) (eqw : Option (List (String × String)))
    (h : wyckoffLabels sga s eqw ≠ []) :
    get_sublattice_information sga s eqw =
      (replace_species s (normalizeMap s),
        some (wyckoffLabels sga s eqw, sublatticeNames sga s eqw)) :=
  Prod.ext_iff.mpr ⟨get_sublattice_information_fst sga s eqw,
    get_sublattice_information_snd_of_ne_nil sga s eqw h⟩

theorem replace_species_normalize_length (s : CrysStructure) :
    (replace_species s (normalizeMap s)).sites.length = s.sites.length := by
  rw [replace_species_normalize]
  simp

theorem get_templates_snd_of_valid (sga : WyckoffOracle) (s : CrysStructure)
    (eqw : Option (List (String × String)))
    (hne : wyckoffLabels sga s eqw ≠ [])
    (hlen : s.sites.length ≤ (wyckoffLabels sga s eqw).length)
    (hN : (sublatticeNames sga s eqw).length ≤ 118) :
    (get_templates sga s eqw).2 =
      some ({ replace_species s (normalizeMap s) with
        sites := templateSites sga s eqw }, templateConfiguration sga s eqw) := by
  have hpair := get_sublattice_information_eq_of_ne_nil sga s eqw hne
  simp only [get_templates, hpair]
  rw [if_pos ⟨by rw [replace_species_normalize_length]; exact hlen, hN⟩]
  rfl

/-! Claim theorems. -/

/-- Claim C10: `get_sublattice_information` assigns `subl_model_name`
only inside the per-site loop, so it fails (an `UnboundLocalError`,
modelled as `none`) exactly when the symmetry analysis returns an
empty per-site label list — as it does for a zero-site structure —
and returns a defined pair whenever that list is nonempty. -/
theorem C10_unbound_local_on_empty_label_list (sga : WyckoffOracle)
    (s : CrysStructure) (eqw : Option (List (String × String))) :
    (get_sublattice_information sga s eqw).2 = none ↔
      sga (symInput (replace_species s (normalizeMap s))) = [] := by
  constructor
  · intro h
    by_contra hne
    rw [get_sublattice_information_snd_of_ne_nil sga s eqw
      (fun hc => hne (applyEquivalentWyckoff_eq_nil.mp hc))] at h
    exact Option.noConfusion h
  · intro h
    exact get_sublattice_information_snd_of_nil sga s eqw
      (applyEquivalentWyckoff_eq_nil.mpr h)

/-- Claim C2 (amended): `get_sublattice_information` does not operate
on a private copy: it replaces every species of the caller-supplied
structure with the dummy element H in place (lattice and site count
preserved), and `get_templates` leaves the caller's structure in the
same mutated state; only the subsequent dict-level template
construction works on a serialized copy. -/
theorem C2_caller_structure_mutated_in_place (sga : WyckoffOracle)
    (s : CrysStructure) (eqw : Option (List (String × String))) :
    (get_sublattice_information sga s eqw).1.lattice = s.lattice ∧
    (get_sublattice_information sga s eqw).1.sites =
      (s.sites.map fun st => { st with element := "H" }) ∧
    (get_templates sga s eqw).1 = (get_sublattice_information sga s eqw).1 := by
  refine ⟨?_, ?_, get_templates_fst sga s eqw⟩
  · rw [get_sublattice_information_fst]
    rfl
  · rw [get_sublattice_information_fst]
    exact replace_species_normalize s

/-- Claim C2 counterexample: on a concrete Na-Cl structure the
caller-supplied structure object differs from the input after
`get_sublattice_information` returns — its species were overwritten
with H — so the function does not leave caller-owned data unchanged. -/
theorem C2_counterexample :
    (get_sublattice_information (fun _ => ["a", "b"]) naclStructure none).1 ≠
      naclStructure := by decide

/-- Claim C5: with an equivalence map supplied, each site's Wyckoff
label is mapped through the map — labels absent from the map pass
through unchanged, a present label is replaced by the map's target —
and `sublattice_names` is the sorted set of distinct post-merge
labels. -/
theorem C5_equivalence_map_merges_sublattices (sga : WyckoffOracle)
    (s : CrysStructure) (m : List (String × String))
    (h : sga (symInput (replace_species s (normalizeMap s))) ≠ []) :
    ∃ sl names,
      (get_sublattice_information sga s (some m)).2 = some (sl, names) ∧
      sl = (sga (symInput (replace_species s (normalizeMap s)))).map
          (fun l => (lookupAssoc m l).getD l) ∧
      names.Sorted (fun a b => strLeB a b = true) ∧
      names.Nodup ∧
      (∀ x : String, x ∈ names ↔ x ∈ sl) := by
  have hne : applyEquivalentWyckoff (some m)
      (sga (symInput (replace_species s (normalizeMap s)))) ≠ [] :=
    fun hc => h (applyEquivalentWyckoff_eq_nil.mp hc)
  refine ⟨_, _, get_sublattice_information_snd_of_ne_nil sga s (some m) hne,
    ?_, sorted_sortStrings _, nodup_sortStrings (List.nodup_dedup _), ?_⟩
  · simp only [applyEquivalentWyckoff]
    refine List.map_congr_left fun l _ => ?_
    cases lookupAssoc m l <;> rfl
  · intro x
    rw [mem_sortStrings, List.mem_dedup]

/-- Claim C5 witness: sites labelled a, b, f with the map b ↦ f
collapse to the two sublattices a and f, not three. -/
theorem C5_witness :
    ∃ sl names,
      (get_sublattice_information (fun _ => ["a", "b", "f"]) mergeExample
        (some [("b", "f")])).2 = some (sl, names) ∧
      sl = (["a", "b", "f"].map fun l => (lookupAssoc [("b", "f")] l).getD l) ∧
      names.Sorted (fun a b => strLeB a b = true) ∧
      names.Nodup ∧
      (∀ x : String, x ∈ names ↔ x ∈ sl) :=
  C5_equivalence_map_merges_sublattices (fun _ => ["a", "b", "f"]) mergeExample
    [("b", "f")] (by decide)

/-- Claim C9: two structures with the same lattice and the same
ordered site positions produce identical
`get_sublattice_information` return values regardless of their
per-site species, because every species is replaced by the dummy
element H before symmetry analysis. -/
theorem C9_sublattice_detection_chemistry_insensitive (sga : WyckoffOracle)
    (eqw : Option (List (String × String))) (s1 s2 : CrysStructure)
    (hlat : s1.lattice = s2.lattice)
    (hpos : s1.sites.map (fun st => st.coords) =
      s2.sites.map (fun st => st.coords)) :
    (get_sublattice_information sga s1 eqw).2 =
      (get_sublattice_information sga s2 eqw).2 := by
  have hmap : ∀ t : CrysStructure,
      (replace_species t (normalizeMap t)).sites.map (fun st => (st.coords, st.element)) =
        (t.sites.map fun st => st.coords).map (fun c => (c, "H")) := by
    intro t
    rw [replace_species_normalize]
    simp [List.map_map]
  have hsym : symInput (replace_species s1 (normalizeMap s1)) =
      symInput (replace_species s2 (normalizeMap s2)) := by
    unfold symInput
    rw [show (replace_species s1 (normalizeMap s1)).lattice = s1.lattice from rfl,
      show (replace_species s2 (normalizeMap s2)).lattice = s2.lattice from rfl,
      hlat, hmap s1, hmap s2, hpos]
  have hg : sga (symInput (replace_species s1 (normalizeMap s1))) =
      sga (symInput (replace_species s2 (normalizeMap s2))) := congrArg sga hsym
  by_cases hw : applyEquivalentWyckoff eqw
      (sga (symInput (replace_species s1 (normalizeMap s1)))) = []
  · rw [get_sublattice_information_snd_of_nil sga s1 eqw hw,
      get_sublattice_information_snd_of_nil sga s2 eqw (by rw [← hg]; exact hw)]
  · rw [get_sublattice_information_snd_of_ne_nil sga s1 eqw hw,
      get_sublattice_information_snd_of_ne_nil sga s2 eqw
        (by rw [← hg]; exact hw), hg]

/-- Claim C9 witness: a chemistry-sensitive symmetry oracle (it keys
off the species it is shown) still yields the same result for an
Na-Cl and a K-Br decoration of the same geometry, since both are
normalized to all-H before the oracle runs. -/
theorem C9_witness :
    (get_sublattice_information
      (fun p => p.2.map fun q => if q.2 = "H" then "a" else "b")
      naclStructure none).2 =
    (get_sublattice_information
      (fun p => p.2.map fun q => if q.2 = "H" then "a" else "b")
      kbrStructure none).2 :=
  C9_sublattice_detection_chemistry_insensitive
    (fun p => p.2.map fun q => if q.2 = "H" then "a" else "b") none
    naclStructure kbrStructure (by decide) (by decide)

/-- Claim C4: for pairwise-distinct placeholders and a positionally
aligned sequence of candidate lists of sizes n1, ..., nk,
`get_endmembers_with_templates` returns exactly n1 * ... * nk
structures, the i-th arising from the i-th tuple of the Cartesian
product of the candidate lists taken in sorted-placeholder-key order
with the right-most axis varying fastest. -/
theorem C4_endmember_count_and_order (ts : CrysStructure) (tc : List String)
    (sc : List (List String)) (hnd : tc.Nodup) (hlen : tc.length = sc.length) :
    ∃ ems, get_endmembers_with_templates ts tc sc = some ems ∧
      ems.length = (sc.map List.length).prod ∧
      ∀ i (hi : i < (productLists ((sortStrings tc).map
            fun k => (dictGet (tc.zip sc) k).getD [])).length)
        (hi2 : i < ems.length),
        substitute_configuration ts [tc]
            [(productLists ((sortStrings tc).map
                fun k => (dictGet (tc.zip sc) k).getD [])).get ⟨i, hi⟩] =
          some (ems.get ⟨i, hi2⟩) := by
  have hsub : ∀ c ∈ productLists ((sortStrings tc).map
      fun k => (dictGet (tc.zip sc) k).getD []),
      (substitute_configuration ts [tc] [c]).isSome := by
    intro c hc
    have hclen : tc.length = c.length := by
      rw [(mem_productLists hc).1, List.length_map, (sortStrings_perm tc).length_eq]
    rw [substitute_one_some ts hclen]
    rfl
  obtain ⟨r, hr, hrlen, hri⟩ := collectSome_of_forall_some hsub
  refine ⟨r, ?_, ?_, hri⟩
  · rw [get_endmembers_eq ts tc sc hnd hlen]
    exact hr
  · rw [hrlen, length_productLists]
    have h1 : (((sortStrings tc).map fun k => (dictGet (tc.zip sc) k).getD []).map
        List.length) = (sortStrings tc).map
          fun k => ((dictGet (tc.zip sc) k).getD []).length := by
      simp [List.map_map, Function.comp]
    have h2 : ((sortStrings tc).map
        fun k => ((dictGet (tc.zip sc) k).getD []).length).Perm
          (tc.map fun k => ((dictGet (tc.zip sc) k).getD []).length) :=
      (sortStrings_perm tc).map _
    have h3 : (tc.map fun k => ((dictGet (tc.zip sc) k).getD []).length) =
        sc.map List.length := by
      have h4 := congrArg (List.map List.length) (map_dictGet_zip hnd hlen)
      rw [List.map_map] at h4
      simpa [Function.comp] using h4
    rw [h1, h2.prod_eq, h3]

/-- Claim C4 witness: the rock-salt scenario — two sublattices with
candidate lists of sizes 2 and 1 give exactly 2 endmembers. -/
theorem C4_witness :
    ∃ ems, get_endmembers_with_templates template2 ["H", "He"]
        [["Na", "K"], ["Cl"]] = some ems ∧
      ems.length = (([["Na", "K"], ["Cl"]] : List (List String)).map List.length).prod ∧
      ∀ i (hi : i < (productLists ((sortStrings ["H", "He"]).map
            fun k => (dictGet ((["H", "He"] : List String).zip
              [["Na", "K"], ["Cl"]]) k).getD [])).length)
        (hi2 : i < ems.length),
        substitute_configuration template2 [["H", "He"]]
            [(productLists ((sortStrings ["H", "He"]).map
                fun k => (dictGet ((["H", "He"] : List String).zip
                  [["Na", "K"], ["Cl"]]) k).getD [])).get ⟨i, hi⟩] =
          some (ems.get ⟨i, hi2⟩) :=
  C4_endmember_count_and_order template2 ["H", "He"] [["Na", "K"], ["Cl"]]
    (by decide) (by decide)

/-- Claim C1 (amended): each endmember assigns to the sites carrying
placeholder `template_configuration[i]` an element drawn from the
candidate list paired with the placeholder at sorted position `i`;
this coincides with `sublattice_configuration[i]` exactly when sorting
the placeholders leaves `template_configuration` unchanged — true for
`get_templates` placeholders of at most three sublattices (H, He, Li)
but false in general (four sublattices sort as Be, H, He, Li). -/
theorem C1_sublattice_alignment_when_sorted (ts : CrysStructure) (tc : List String)
    (sc : List (List String)) (hnd : tc.Nodup) (hlen : tc.length = sc.length)
    (hsorted : sortStrings tc = tc) :
    ∃ ems, get_endmembers_with_templates ts tc sc = some ems ∧
      ∀ em ∈ ems, ∀ k (hk : k < ts.sites.length) (hk2 : k < em.sites.length)
        i (hi : i < tc.length) (hi2 : i < sc.length),
        (ts.sites.get ⟨k, hk⟩).element = tc.get ⟨i, hi⟩ →
        (em.sites.get ⟨k, hk2⟩).element ∈ sc.get ⟨i, hi2⟩ := by
  have hL : ((sortStrings tc).map fun k => (dictGet (tc.zip sc) k).getD []) = sc := by
    rw [hsorted, map_dictGet_zip hnd hlen]
  have hkey := get_endmembers_eq ts tc sc hnd hlen
  rw [hL] at hkey
  have hsub : ∀ c ∈ productLists sc,
      (substitute_configuration ts [tc] [c]).isSome := by
    intro c hc
    have hclen : tc.length = c.length := by rw [hlen, (mem_productLists hc).1]
    rw [substitute_one_some ts hclen]
    rfl
  obtain ⟨r, hr, _, _⟩ := collectSome_of_forall_some hsub
  refine ⟨r, by rw [hkey]; exact hr, ?_⟩
  intro em hem k hk hk2 i hi hi2 helem
  obtain ⟨c, hcmem, hcsub⟩ := collectSome_mem hr hem
  have hclen : tc.length = c.length := by rw [hlen, (mem_productLists hcmem).1]
  rw [substitute_one_some ts hclen] at hcsub
  have hemeq : substOne ts tc c = em := Option.some.inj hcsub
  subst hemeq
  have hci : i < c.length := hclen ▸ hi
  have hg : (substOne ts tc c).sites.get ⟨k, hk2⟩ =
      match lookupAssoc (tc.zip c) (ts.sites.get ⟨k, hk⟩).element with
      | some e => { ts.sites.get ⟨k, hk⟩ with element := e }
      | none => ts.sites.get ⟨k, hk⟩ :=
    (map_get_eq rfl k hk hk2).symm
  rw [hg, helem, lookupAssoc_zip_get hnd i hi hci]
  exact (mem_productLists hcmem).2 i hci hi2

/-- Claim C1 counterexample: with four sublattices the `get_templates`
placeholders are H, He, Li, Be, which sort as Be, H, He, Li; the
resulting endmember puts Ca — the sole candidate of sublattice 3 — on
the sites carrying placeholder `template_configuration[0]` = H, an
element not drawn from `sublattice_configuration[0]` = [Na]. -/
theorem C1_counterexample :
    (get_templates sga4 quat4Structure none).2 =
      some (template4, ["H", "He", "Li", "Be"]) ∧
    (template4.sites.map fun st => st.element) = ["H", "He", "Li", "Be"] ∧
    get_endmembers_with_templates template4 ["H", "He", "Li", "Be"]
      [["Na"], ["K"], ["Mg"], ["Ca"]] = some [endmember4] ∧
    (endmember4.sites.map fun st => st.element) = ["Ca", "Na", "K", "Mg"] ∧
    "Ca" ∉ (["Na"] : List String) := by decide

/-- Claim C1 witness: with the three-sublattice placeholders H, He, Li
(stable under sorting) every endmember draws each sublattice's element
from that sublattice's own candidate list. -/
theorem C1_witness :
    ∃ ems, get_endmembers_with_templates template3 ["H", "He", "Li"]
        [["Na"], ["K", "Rb"], ["Cl"]] = some ems ∧
      ∀ em ∈ ems, ∀ k (hk : k < template3.sites.length)
        (hk2 : k < em.sites.length)
        i (hi : i < (["H", "He", "Li"] : List String).length)
        (hi2 : i < ([["Na"], ["K", "Rb"], ["Cl"]] : List (List String)).length),
        (template3.sites.get ⟨k, hk⟩).element =
          (["H", "He", "Li"] : List String).get ⟨i, hi⟩ →
        (em.sites.get ⟨k, hk2⟩).element ∈
          ([["Na"], ["K", "Rb"], ["Cl"]] : List (List String)).get ⟨i, hi2⟩ :=
  C1_sublattice_alignment_when_sorted template3 ["H", "He", "Li"]
    [["Na"], ["K", "Rb"], ["Cl"]] (by decide) (by decide) (by decide)

/-- Claim C3 (amended): `get_endmembers_with_templates` performs no
eager validation: a `sublattice_configuration` longer than
`template_configuration` is silently truncated to the zip of the two,
and an empty per-sublattice candidate list makes the function silently
return an empty endmember list instead of raising. -/
theorem C3_no_eager_validation (ts : CrysStructure) (tc : List String)
    (sc : List (List String)) :
    get_endmembers_with_templates ts tc sc =
      get_endmembers_with_templates ts tc (sc.take tc.length) ∧
    (tc.Nodup → tc.length = sc.length → [] ∈ sc →
      get_endmembers_with_templates ts tc sc = some []) := by
  constructor
  · unfold get_endmembers_with_templates buildElementDict
    rw [zip_take_right]
  · intro hnd hlen hnil
    rw [get_endmembers_eq ts tc sc hnd hlen]
    obtain ⟨⟨j, hj⟩, hjv⟩ := List.mem_iff_get.mp hnil
    have hjt : j < tc.length := by rw [hlen]; exact hj
    have hf : (dictGet (tc.zip sc) (tc.get ⟨j, hjt⟩)).getD [] = [] := by
      rw [map_get_eq (map_dictGet_zip hnd hlen) j hjt hj, hjv]
    have hmem : [] ∈ ((sortStrings tc).map
        fun k => (dictGet (tc.zip sc) k).getD []) :=
      List.mem_map.mpr ⟨tc.get ⟨j, hjt⟩, mem_sortStrings.mpr (List.get_mem _ _ _), hf⟩
    rw [productLists_eq_nil_of_mem hmem]
    rfl

/-- Claim C3 counterexample: with a single sublattice and an empty
candidate list the call silently returns `some []` rather than
raising, and with an over-long `sublattice_configuration` it silently
drops the extra candidate list and returns one endmember. -/
theorem C3_counterexample :
    get_endmembers_with_templates h1Structure ["H"] [[]] = some [] ∧
    get_endmembers_with_templates h1Structure ["H"] [["Na"], ["K"]] =
      some [⟨[(1, 0, 0), (0, 1, 0), (0, 0, 1)], [⟨(0, 0, 0), "Na", []⟩]⟩] := by decide

/-- Claim C3 witness: a mismatched configuration with an empty
candidate list yields a silently empty endmember list. -/
theorem C3_witness :
    get_endmembers_with_templates template2 ["H", "He"] [["Na"], []] = some [] :=
  (C3_no_eager_validation template2 ["H", "He"] [["Na"], []]).2
    (by decide) (by decide) (by decide)

/-- Claim C8: when the sublattice analysis yields N names (and the
per-site label list covers the sites, N stays within the periodic
table, and — as for genuine lowercase Wyckoff letters — no label
collides with a placeholder symbol), `get_templates` returns a
template configuration of length exactly N whose i-th entry is the
element of atomic number i+1, and a template structure whose every
site carries the placeholder of its own sublattice, hence one of the
first N atomic-number placeholders. -/
theorem C8_template_placeholder_invariant (sga : WyckoffOracle)
    (s : CrysStructure) (eqw : Option (List (String × String)))
    (hne : wyckoffLabels sga s eqw ≠ [])
    (hlen : s.sites.length ≤ (wyckoffLabels sga s eqw).length)
    (hN : (sublatticeNames sga s eqw).length ≤ 118)
    (hcol : ∀ l ∈ wyckoffLabels sga s eqw, ∀ k,
      k < (sublatticeNames sga s eqw).length → l ≠ elementSymbol (k + 1)) :
    (get_templates sga s eqw).2 =
      some ({ replace_species s (normalizeMap s) with
        sites := templateSites sga s eqw }, templateConfiguration sga s eqw) ∧
    (templateConfiguration sga s eqw).length = (sublatticeNames sga s eqw).length ∧
    (∀ j (hj : j < (templateConfiguration sga s eqw).length),
      (templateConfiguration sga s eqw).get ⟨j, hj⟩ = elementSymbol (j + 1)) ∧
    (templateSites sga s eqw).length = s.sites.length ∧
    (∀ k (hk : k < (templateSites sga s eqw).length)
      (hk3 : k < (wyckoffLabels sga s eqw).length),
      ∃ j, ∃ hj : j < (sublatticeNames sga s eqw).length,
        (sublatticeNames sga s eqw).get ⟨j, hj⟩ =
          (wyckoffLabels sga s eqw).get ⟨k, hk3⟩ ∧
        ((templateSites sga s eqw).get ⟨k, hk⟩).element = elementSymbol (j + 1) ∧
        ((templateSites sga s eqw).get ⟨k, hk⟩).element ∈
          templateConfiguration sga s eqw) := by
  have hsnd2 : templateConfiguration sga s eqw =
      (List.range (sublatticeNames sga s eqw).length).map
        (fun j => elementSymbol (0 + j + 1)) :=
    placeholderLoop_snd (sublatticeNames sga s eqw) 0
      (markSites (replace_species s (normalizeMap s)).sites (wyckoffLabels sga s eqw))
  have hcfglen : (templateConfiguration sga s eqw).length =
      (sublatticeNames sga s eqw).length := by
    rw [hsnd2]
    simp
  have hcfgget : ∀ j (hj : j < (templateConfiguration sga s eqw).length),
      (templateConfiguration sga s eqw).get ⟨j, hj⟩ = elementSymbol (j + 1) := by
    intro j hj
    have hjr : j < (List.range (sublatticeNames sga s eqw).length).length := by
      simp only [List.length_range]
      exact hcfglen ▸ hj
    have h1 := map_get_eq hsnd2.symm j hjr hj
    rw [← h1]
    have h2 : (List.range (sublatticeNames sga s eqw).length).get ⟨j, hjr⟩ = j := by
      simp [List.get_eq_getElem]
    rw [h2, show 0 + j + 1 = j + 1 from by omega]
  have hfst := placeholderLoop_fst (sublatticeNames sga s eqw) 0
    (markSites (replace_species s (normalizeMap s)).sites (wyckoffLabels sga s eqw))
  have hmlen : (markSites (replace_species s (normalizeMap s)).sites
      (wyckoffLabels sga s eqw)).length = s.sites.length := by
    rw [markSites_length, replace_species_normalize_length]
    exact Nat.min_eq_left hlen
  have htsl : (templateSites sga s eqw).length = s.sites.length := by
    unfold templateSites
    rw [hfst, List.length_map, hmlen]
  refine ⟨get_templates_snd_of_valid sga s eqw hne hlen hN, hcfglen, hcfgget, htsl, ?_⟩
  intro k hk hk3
  have hkm : k < (markSites (replace_species s (normalizeMap s)).sites
      (wyckoffLabels sga s eqw)).length := by
    rw [hmlen, ← htsl]
    exact hk
  have hks : k < (replace_species s (normalizeMap s)).sites.length := by
    rw [replace_species_normalize_length, ← htsl]
    exact hk
  have hgm := markSites_get (replace_species s (normalizeMap s)).sites
    (wyckoffLabels sga s eqw) k hks hk3 hkm
  have hge : (templateSites sga s eqw).get ⟨k, hk⟩ =
      ⟨((markSites (replace_species s (normalizeMap s)).sites
          (wyckoffLabels sga s eqw)).get ⟨k, hkm⟩).coords,
        placeholderElem 0 (sublatticeNames sga s eqw)
          ((markSites (replace_species s (normalizeMap s)).sites
            (wyckoffLabels sga s eqw)).get ⟨k, hkm⟩).element,
        ((markSites (replace_species s (normalizeMap s)).sites
          (wyckoffLabels sga s eqw)).get ⟨k, hkm⟩).props⟩ :=
    (map_get_eq hfst.symm k hkm hk).symm
  have helem : ((templateSites sga s eqw).get ⟨k, hk⟩).element =
      placeholderElem 0 (sublatticeNames sga s eqw)
        ((wyckoffLabels sga s eqw).get ⟨k, hk3⟩) := by
    rw [hge, hgm]
  have hlabmem : (wyckoffLabels sga s eqw).get ⟨k, hk3⟩ ∈
      sublatticeNames sga s eqw :=
    mem_sortStrings.mpr (List.mem_dedup.mpr (List.get_mem _ _ _))
  obtain ⟨⟨j, hjN⟩, hjv⟩ := List.mem_iff_get.mp hlabmem
  have hndn : (sublatticeNames sga s eqw).Nodup :=
    nodup_sortStrings (List.nodup_dedup _)
  have hcol0 : ∀ n ∈ sublatticeNames sga s eqw, ∀ k2,
      k2 < 0 + (sublatticeNames sga s eqw).length →
      n ≠ elementSymbol (k2 + 1) := by
    intro n hn k2 hk2
    exact hcol n (List.mem_dedup.mp (mem_sortStrings.mp hn)) k2 (by omega)
  have hpe : placeholderElem 0 (sublatticeNames sga s eqw)
      ((wyckoffLabels sga s eqw).get ⟨k, hk3⟩) = elementSymbol (0 + j + 1) := by
    rw [← hjv]
    exact placeholderElem_get (sublatticeNames sga s eqw) 0 j hjN hndn hcol0
  have hj2 : j < (templateConfiguration sga s eqw).length := by
    rw [hcfglen]
    exact hjN
  refine ⟨j, hjN, hjv, ?_, ?_⟩
  · rw [helem, hpe, show 0 + j + 1 = j + 1 from by omega]
  · rw [helem, hpe, show 0 + j + 1 = j + 1 from by omega, ← hcfgget j hj2]
    exact List.get_mem _ _ _

/-- Claim C8 witness: labels b, a on a two-site structure give names
[a, b], the configuration [H, He], and sites carrying the placeholder
of their own sublattice. -/
theorem C8_witness :
    (get_templates (fun _ => ["b", "a"]) abStructure none).2 =
      some ({ replace_species abStructure (normalizeMap abStructure) with
        sites := templateSites (fun _ => ["b", "a"]) abStructure none },
        templateConfiguration (fun _ => ["b", "a"]) abStructure none) ∧
    (templateConfiguration (fun _ => ["b", "a"]) abStructure none).length =
      (sublatticeNames (fun _ => ["b", "a"]) abStructure none).length ∧
    (∀ j (hj : j < (templateConfiguration (fun _ => ["b", "a"])
        abStructure none).length),
      (templateConfiguration (fun _ => ["b", "a"]) abStructure none).get ⟨j, hj⟩ =
        elementSymbol (j + 1)) ∧
    (templateSites (fun _ => ["b", "a"]) abStructure none).length =
      abStructure.sites.length ∧
    (∀ k (hk : k < (templateSites (fun _ => ["b", "a"]) abStructure none).length)
      (hk3 : k < (wyckoffLabels (fun _ => ["b", "a"]) abStructure none).length),
      ∃ j, ∃ hj : j < (sublatticeNames (fun _ => ["b", "a"])
        abStructure none).length,
        (sublatticeNames (fun _ => ["b", "a"]) abStructure none).get ⟨j, hj⟩ =
          (wyckoffLabels (fun _ => ["b", "a"]) abStructure none).get ⟨k, hk3⟩ ∧
        ((templateSites (fun _ => ["b", "a"]) abStructure none).get
          ⟨k, hk⟩).element = elementSymbol (j + 1) ∧
        ((templateSites (fun _ => ["b", "a"]) abStructure none).get
          ⟨k, hk⟩).element ∈
          templateConfiguration (fun _ => ["b", "a"]) abStructure none) :=
  C8_template_placeholder_invariant (fun _ => ["b", "a"]) abStructure none
    (by decide) (by decide) (by decide) (by decide)

end Dfttk
